import Mathlib

/-
Verification development for the funding-rate aggregation service
(src/core/models.py, src/core/aggregator.py, src/app.py).

Python floats are modelled as rationals; the global mutable caches
(EXCHANGE_CACHE, CACHE, HISTORY) are modelled by explicit state passing.

The rational arithmetic definitions are restored to their default
reducibility so that concrete runs of the model reduce inside proofs.
-/

attribute [local semireducible] Rat.ofScientific Rat.add Rat.sub Rat.mul Rat.inv

/-- Mirror of the FundingRateItem dataclass in src/core/models.py.
Exchange names are plain strings (the Python Literal type is not enforced
at runtime). -/
structure FundingRateItem where
  exchange : String
  symbol : String
  unified_symbol : String
  funding_rate_8h : ℚ
  raw_funding_rate : ℚ
  next_funding_time : Option Int := none
  max_leverage : Option ℚ := none
deriving DecidableEq, Repr

/-- Mirror of the FundingDiffRow dataclass in src/core/models.py. -/
structure FundingDiffRow where
  unified_symbol : String
  max_rate_exchange : String
  max_rate : ℚ
  min_rate_exchange : String
  min_rate : ℚ
  diff : ℚ
  leverage_used : ℚ
  nominal_funding_max_leverage : ℚ
  actual_diff : Option ℚ := none
  nominal_spread : Option ℚ := none
  details : List FundingRateItem := []
deriving DecidableEq, Repr

/-- DEFAULT_LEVERAGE = 50.0 in src/core/aggregator.py. -/
def DEFAULT_LEVERAGE : ℚ := 50

/-- Python truthiness fallback, modelling the expression (x or d) where x is a
float-or-None: None and 0.0 are falsy, so both select the default d. Used for
max_leverage fallback (aggregator.py lines 104-105) and for the history
field (nominal_spread or nominal_funding_max_leverage) in app.py line 79. -/
def pyOrD (x : Option ℚ) (d : ℚ) : ℚ :=
  match x with
  | none => d
  | some v => if v = 0 then d else v

/-- Model of math.isclose with its default tolerances rel_tol=1e-9,
abs_tol=0.0: abs (a-b) is at most max (rel_tol * max |a| |b|) abs_tol. -/
def isclose (a b : ℚ) : Bool :=
  decide (|a - b| ≤ max ((1 / 1000000000) * max |a| |b|) 0)

/-- Helper for first-occurrence key order: keys of a Python dict built by
insertion (collections.defaultdict in build_ranking, Counter iteration
order). -/
def firstOccAux (seen : List String) : List String → List String
  | [] => []
  | k :: ks => if k ∈ seen then firstOccAux seen ks else k :: firstOccAux (k :: seen) ks

/-- Distinct keys in first-occurrence order, as iteration over a Python dict
yields them. -/
def firstOccKeys (ks : List String) : List String := firstOccAux [] ks

/-- Items of one symbol group: the list a defaultdict(list) accumulates under
one key, i.e. all items with that unified_symbol in input order. -/
def groupItems (items : List FundingRateItem) (k : String) : List FundingRateItem :=
  items.filter (fun i => i.unified_symbol == k)

/-- Tie-break of aggregator.py lines 94-100: when the initially chosen high and
low candidates share an exchange, first try an alternate low candidate from a
different exchange, then an alternate high candidate, else keep the pair. The
first argument pair is (max_candidates[0], min_candidates[0]); the list
arguments are the full candidate lists searched by next(...). -/
def tie_break (mx0 mn0 : FundingRateItem)
    (max_candidates min_candidates : List FundingRateItem) :
    FundingRateItem × FundingRateItem :=
  if mx0.exchange = mn0.exchange then
    match min_candidates.find? (fun si => !(si.exchange == mx0.exchange)) with
    | some alt_min => (mx0, alt_min)
    | none =>
      match max_candidates.find? (fun si => !(si.exchange == mn0.exchange)) with
      | some alt_max => (alt_max, mn0)
      | none => (mx0, mn0)
  else (mx0, mn0)

/-- Maximum of funding_rate_8h over the non-empty group x :: xs, modelling
max(si.funding_rate_8h for si in symbol_items) of aggregator.py line 85. -/
def maxRateOf (x : FundingRateItem) (xs : List FundingRateItem) : ℚ :=
  xs.foldl (fun m si => max m si.funding_rate_8h) x.funding_rate_8h

/-- Minimum of funding_rate_8h over the non-empty group x :: xs (line 86). -/
def minRateOf (x : FundingRateItem) (xs : List FundingRateItem) : ℚ :=
  xs.foldl (fun m si => min m si.funding_rate_8h) x.funding_rate_8h

/-- Group members whose rate is isclose to the maximum (line 88). -/
def maxCandidates (x : FundingRateItem) (xs : List FundingRateItem) :
    List FundingRateItem :=
  (x :: xs).filter (fun si => isclose si.funding_rate_8h (maxRateOf x xs))

/-- Group members whose rate is isclose to the minimum (line 89). -/
def minCandidates (x : FundingRateItem) (xs : List FundingRateItem) :
    List FundingRateItem :=
  (x :: xs).filter (fun si => isclose si.funding_rate_8h (minRateOf x xs))

/-- Row constructed from the chosen pair for one group (aggregator.py lines
102-121): the field values derive from max_item and min_item, with the
Python-truthy leverage fallback and nominal = diff * leverage_used. -/
def mkRankingRow (unified_symbol : String) (symbol_items : List FundingRateItem)
    (max_item min_item : FundingRateItem) : FundingDiffRow :=
  { unified_symbol := unified_symbol
    max_rate_exchange := max_item.exchange
    max_rate := max_item.funding_rate_8h
    min_rate_exchange := min_item.exchange
    min_rate := min_item.funding_rate_8h
    diff := max_item.funding_rate_8h - min_item.funding_rate_8h
    leverage_used := min (pyOrD max_item.max_leverage DEFAULT_LEVERAGE)
                         (pyOrD min_item.max_leverage DEFAULT_LEVERAGE)
    nominal_funding_max_leverage :=
      (max_item.funding_rate_8h - min_item.funding_rate_8h) *
        min (pyOrD max_item.max_leverage DEFAULT_LEVERAGE)
            (pyOrD min_item.max_leverage DEFAULT_LEVERAGE)
    actual_diff := some (max_item.funding_rate_8h - min_item.funding_rate_8h)
    nominal_spread :=
      some ((max_item.funding_rate_8h - min_item.funding_rate_8h) *
        min (pyOrD max_item.max_leverage DEFAULT_LEVERAGE)
            (pyOrD min_item.max_leverage DEFAULT_LEVERAGE))
    details := symbol_items }

/-- Body of the per-group loop of build_ranking (aggregator.py lines 78-121)
for one symbol group. Returns none when the group is skipped because fewer
than 2 distinct exchanges are present. The two inner matches return none on
an empty group or empty candidate list; in Python these are the always
populated arguments of max()/min() and the index accesses max_candidates[0],
min_candidates[0], which cannot fail there because the group is non-empty
and the element attaining the extremum always survives its own isclose
filter. -/
def rowForGroup (unified_symbol : String) (symbol_items : List FundingRateItem) :
    Option FundingDiffRow :=
  if ((symbol_items.map (fun si => si.exchange)).dedup).length < 2 then none
  else
    match symbol_items with
    | [] => none
    | x :: xs =>
      match maxCandidates x xs, minCandidates x xs with
      | mx0 :: mxs, mn0 :: mns =>
        some (mkRankingRow unified_symbol (x :: xs)
          (tie_break mx0 mn0 (mx0 :: mxs) (mn0 :: mns)).1
          (tie_break mx0 mn0 (mx0 :: mxs) (mn0 :: mns)).2)
      | _, _ => none

/-- Stable insertion of a row into a list sorted by abs diff descending: the
row goes after every existing row whose key is at least as large. -/
def insertRowDesc (r : FundingDiffRow) : List FundingDiffRow → List FundingDiffRow
  | [] => [r]
  | x :: xs => if |x.diff| < |r.diff| then r :: x :: xs else x :: insertRowDesc r xs

/-- Stable sort by abs diff descending, the unique function implementing
rows.sort(key=lambda r: abs(r.diff), reverse=True) of aggregator.py line 125
(CPython list.sort is stable, also with reverse=True). -/
def sortRowsDesc : List FundingDiffRow → List FundingDiffRow
  | [] => []
  | r :: rs => insertRowDesc r (sortRowsDesc rs)

/-- Model of build_ranking (aggregator.py lines 56-132): group by
unified_symbol in first-occurrence order, build one row per group with at
least 2 distinct exchanges, sort stably by abs diff descending. -/
def build_ranking (items : List FundingRateItem) : List FundingDiffRow :=
  if items.isEmpty then []
  else
    let keys := firstOccKeys (items.map (fun i => i.unified_symbol))
    let rows := keys.filterMap (fun k => rowForGroup k (groupItems items k))
    sortRowsDesc rows

/-! Collector with per-source fallback cache (src/core/aggregator.py lines
15-54). The global EXCHANGE_CACHE dict is modelled as a function from
exchange name to item list; an absent key is the empty list, which is
faithful because only non-empty results are ever stored. -/

/-- Cache of last known-good items per exchange, modelling EXCHANGE_CACHE. -/
abbrev ExchangeCache := String → List FundingRateItem

/-- Outcome of one adapter coroutine as seen by asyncio.gather with
return_exceptions=True: either the returned item list or a raised
exception. -/
inductive FetchResult where
  | ok (items : List FundingRateItem)
  | err
deriving DecidableEq, Repr

/-- Body of the per-source merge loop of collect_all (aggregator.py lines
23-49) for one source: on exception use the cached items (nothing when no
cache); on an empty result likewise; on a non-empty result overwrite the
cache for this source and contribute the fresh items. Returns the items
this source contributes together with the updated cache. -/
def collect_step (cache : ExchangeCache) (name : String) (result : FetchResult) :
    List FundingRateItem × ExchangeCache :=
  match result with
  | FetchResult.err => (cache name, cache)
  | FetchResult.ok current =>
    if current.isEmpty then (cache name, cache)
    else (current, fun n => if n = name then current else cache n)

/-- Model of collect_all (aggregator.py lines 17-54): the registered sources
are exactly BINANCE and OKX (line 18), polled concurrently; the merge loop
runs in that fixed order. Returns the merged item list and the updated
per-source cache. -/
def collect_all (cache : ExchangeCache) (rB rO : FetchResult) :
    List FundingRateItem × ExchangeCache :=
  let pB := collect_step cache "BINANCE" rB
  let pO := collect_step pB.2 "OKX" rO
  (pB.1 ++ pO.1, pO.2)

/-! Coordinator state (src/app.py): the CACHE and HISTORY globals and the
request handlers. -/

/-- Exception kinds raised by the mismatched call in _refresh_cache. -/
inductive PyError where
  | valueError
  | typeError
deriving DecidableEq, Repr

/-- Python tuple unpacking of a list into two targets: succeeds exactly on a
two-element list, otherwise raises ValueError. -/
def unpack2 {α : Type} : List α → Option (α × α)
  | [a, b] => some (a, b)
  | _ => none

/-- Model of _refresh_cache (app.py lines 46-88) called against the
collect_all of src/core/aggregator.py, which returns a flat item list while
line 48 of app.py unpacks it as (items, fetch_status). For a collected list
whose length is not 2 the unpacking raises ValueError; for a two-element
list it binds items to the first FundingRateItem alone, and the immediate
call build_ranking(items) raises TypeError at list(items) because the
dataclass is not iterable. Either way the function raises before any
mutation of CACHE or HISTORY, so its success path (modelled separately by
refresh_apply) is never reached. -/
def refresh_cache_result (collected : List FundingRateItem) :
    Except PyError (List FundingDiffRow) :=
  match unpack2 collected with
  | none => Except.error PyError.valueError
  | some _ => Except.error PyError.typeError

/-- One stored history entry, the dict appended in app.py lines 74-84. -/
structure HistoryRecord where
  ts : ℚ
  diff : ℚ
  nominal : ℚ
  max_rate : ℚ
  min_rate : ℚ
  max_ex : String
  min_ex : String
deriving DecidableEq, Repr

/-- History entry built from a ranking row (app.py lines 76-84); the nominal
field uses Python truthiness over the optional nominal_spread. -/
def histRecordOf (now : ℚ) (row : FundingDiffRow) : HistoryRecord :=
  { ts := now
    diff := row.diff
    nominal := pyOrD row.nominal_spread row.nominal_funding_max_leverage
    max_rate := row.max_rate
    min_rate := row.min_rate
    max_ex := row.max_rate_exchange
    min_ex := row.min_rate_exchange }

/-- Suffix of the last n elements of a list. -/
def takeLast (n : Nat) (l : List α) : List α := l.drop (l.length - n)

/-- Cap of app.py lines 85-86: when the per-symbol list exceeds 200 entries,
del hist[:-200] keeps only the last 200. -/
def trimHistory (h : List HistoryRecord) : List HistoryRecord :=
  if 200 < h.length then takeLast 200 h else h

/-- Per-symbol history store, modelling the HISTORY dict; an absent key reads
as the empty list, matching HISTORY.setdefault(sym, []) and
HISTORY.get(symbol, []). -/
abbrev HistoryMap := String → List HistoryRecord

/-- History store at process start: every symbol empty. -/
def emptyHistory : HistoryMap := fun _ => []

/-- Effect of one iteration of the history loop (app.py lines 73-86): append
one record under the row symbol, then trim to the last 200. -/
def historyAfterRow (now : ℚ) (H : HistoryMap) (row : FundingDiffRow) : HistoryMap :=
  fun s =>
    if s = row.unified_symbol then
      trimHistory (H row.unified_symbol ++ [histRecordOf now row])
    else H s

/-- Effect of the whole history loop of one refresh, in ranking row order. -/
def historyAfterRefresh (now : ℚ) (rows : List FundingDiffRow) (H : HistoryMap) : HistoryMap :=
  rows.foldl (historyAfterRow now) H

/-- History store after a sequence of refresh cycles, each given by its
completion time and its ranking rows. -/
def runRefreshSchedule (schedule : List (ℚ × List FundingDiffRow)) (H : HistoryMap) :
    HistoryMap :=
  schedule.foldl (fun h p => historyAfterRefresh p.1 p.2 h) H

/-- Records a schedule appends for one symbol, in chronological order. -/
def scheduleRecords (schedule : List (ℚ × List FundingDiffRow)) (s : String) :
    List HistoryRecord :=
  schedule.flatMap
    (fun p => (p.2.filter (fun row => row.unified_symbol == s)).map (histRecordOf p.1))

/-- Model of the GET /api/funding/history handler (app.py lines 135-138). -/
def get_funding_history (H : HistoryMap) (symbol : String) :
    String × List HistoryRecord :=
  (symbol, H symbol)

/-- Snapshot metadata written by a successful refresh (app.py lines 55-61). -/
structure CacheMeta where
  item_total : Nat
  exchange_item_counts : List (String × Nat)
  row_total : Nat
  refresh_ms : Int
  fetch_status : List (String × String)
deriving DecidableEq, Repr

/-- Per-exchange item counts in first-occurrence order, modelling
Counter(item.exchange for item in items). -/
def countsBy (items : List FundingRateItem) : List (String × Nat) :=
  (firstOccKeys (items.map (fun i => i.exchange))).map
    (fun e => (e, (items.filter (fun i => i.exchange == e)).length))

/-- Combined CACHE and HISTORY globals of app.py. The initial state has
timestamp 0.0, no rows, empty meta and no recorded error. -/
structure ServerState where
  timestamp : ℚ
  rows : List FundingDiffRow
  meta : Option CacheMeta
  last_error : Option String
  last_error_at : Option ℚ
  history : HistoryMap

/-- Success body of _refresh_cache (app.py lines 50-88) as it reads with its
intended inputs: collected items and a fetch status, the entry time
started_at and the post-collection time now. Replaces the snapshot fields,
clears the recorded error and appends one history record per ranking row.
Returns the new state and the returned rows. -/
def refresh_apply (items : List FundingRateItem) (fetch_status : List (String × String))
    (started_at now : ℚ) (st : ServerState) : ServerState × List FundingDiffRow :=
  let rows := build_ranking items
  ({ timestamp := now
     rows := rows
     meta := some
       { item_total := items.length
         exchange_item_counts := countsBy items
         row_total := rows.length
         refresh_ms := ((now - started_at) * 1000).floor
         fetch_status := fetch_status }
     last_error := none
     last_error_at := none
     history := historyAfterRefresh now rows st.history }, rows)

/-- Result of the awaited refresh attempt inside the lock of
get_funding_ranking: the collected items with their fetch status and
completion time, a timeout of asyncio.wait_for, or any other exception with
its message. -/
inductive RefreshOutcome where
  | ok (items : List FundingRateItem) (fetch_status : List (String × String)) (doneAt : ℚ)
  | timeout
  | exc (msg : String)
deriving DecidableEq, Repr

/-- REFRESH_INTERVAL with its default value 30 (app.py line 20). -/
def REFRESH_INTERVAL : ℚ := 30

/-- Error string recorded on timeout (app.py line 112) with the default
REFRESH_TIMEOUT of 9 seconds, formatted as Python prints the float 9.0. -/
def refreshTimeoutMsg : String := "refresh_timeout_9.0s"

/-- Response of the ranking endpoint: updated_at, rows, and the meta dict
with its refresh_in_progress, last_error and last_error_at keys (app.py
lines 123-132). The cache_age_s diagnostic, a rounded display value no
claim concerns, is not modelled. -/
structure RankingReply where
  updated_at : ℚ
  rows : List FundingDiffRow
  meta : Option CacheMeta
  refresh_in_progress : Bool
  last_error : Option String
  last_error_at : Option ℚ

/-- Model of one call of the GET /api/funding/ranking handler (app.py lines
90-132) by a single caller: st is the shared state on entry, now the clock
reading used by the freshness checks, lockedByOther whether another caller
holds REFRESH_LOCK, outcome the result of the awaited refresh when one is
attempted, and terr the clock reading taken when an error is recorded. The
served rows on the error paths are cached_rows or [], which equals the
cached rows themselves since an empty list is its own fallback. -/
def get_funding_ranking (st : ServerState) (now : ℚ) (lockedByOther : Bool)
    (outcome : RefreshOutcome) (terr : ℚ) : ServerState × RankingReply :=
  let fresh := st.timestamp ≠ 0 ∧ now - st.timestamp < REFRESH_INTERVAL
  let res :=
    if fresh then (st, st.rows)
    else if lockedByOther then (st, st.rows)
    else if fresh then (st, st.rows)
    else
      match outcome with
      | RefreshOutcome.ok items fs doneAt => refresh_apply items fs now doneAt st
      | RefreshOutcome.timeout =>
        ({ st with last_error := some refreshTimeoutMsg, last_error_at := some terr },
         st.rows)
      | RefreshOutcome.exc msg =>
        ({ st with last_error := some msg, last_error_at := some terr }, st.rows)
  let st2 := res.1
  (st2,
   { updated_at := if st2.timestamp = 0 then now else st2.timestamp
     rows := res.2
     meta := st2.meta
     refresh_in_progress := lockedByOther
     last_error := st2.last_error
     last_error_at := st2.last_error_at })

/-! Cooperative-concurrency model of the ranking endpoint (app.py lines
90-121 with REFRESH_LOCK of line 23). Under the asyncio event loop a caller
runs without preemption between await points. One call is therefore at most
two atomic segments: the first reads the clock and the cache, serves the
cache when it is fresh or when the lock is held, and otherwise acquires the
lock (the uncontended asyncio.Lock fast path is synchronous, and the
double-check still sees the same state) and suspends awaiting the pipeline;
the second resumes when the awaited refresh finishes, updates the state and
releases the lock. Freshness, a predicate of the clock and timestamp, is
abstracted to a flag that a successful refresh sets. -/

/-- Control point of one caller of the ranking endpoint. -/
inductive CallerPC where
  | idle
  | waiting
  | done (served : List FundingDiffRow)
deriving DecidableEq, Repr

/-- Shared state plus the per-caller control points; execs counts started
pipeline executions. -/
structure SysState where
  lock : Bool
  fresh : Bool
  rows : List FundingDiffRow
  callers : List CallerPC
  execs : Nat
deriving DecidableEq, Repr

/-- Scheduler decision: run the first segment of caller i, or complete the
refresh caller i is awaiting, with success carrying the new rows or with a
timeout or exception. -/
inductive SchedChoice where
  | start (i : Nat)
  | finishOk (i : Nat) (newRows : List FundingDiffRow)
  | finishErr (i : Nat)
deriving DecidableEq, Repr

/-- Marks the scheduler choices that complete a refresh with an error. -/
def isErrChoice : SchedChoice → Bool
  | SchedChoice.finishErr _ => true
  | _ => false

/-- One atomic segment of the system: none when the chosen caller is not at
the required control point. The first segment serves the cached rows at
once when the snapshot is fresh or the lock is held; otherwise it takes the
lock and starts the pipeline. A successful completion stores the new rows,
marks the snapshot fresh, releases the lock and serves the new rows; a
failed completion releases the lock and serves the rows read under the
lock, which are unchanged while the caller held it. -/
def stepC (s : SysState) : SchedChoice → Option SysState
  | SchedChoice.start i =>
    match s.callers[i]? with
    | some CallerPC.idle =>
      if s.fresh then some { s with callers := s.callers.set i (CallerPC.done s.rows) }
      else if s.lock then some { s with callers := s.callers.set i (CallerPC.done s.rows) }
      else some { s with lock := true, callers := s.callers.set i CallerPC.waiting,
                         execs := s.execs + 1 }
    | _ => none
  | SchedChoice.finishOk i newRows =>
    match s.callers[i]? with
    | some CallerPC.waiting =>
      some { s with lock := false, fresh := true, rows := newRows,
                    callers := s.callers.set i (CallerPC.done newRows) }
    | _ => none
  | SchedChoice.finishErr i =>
    match s.callers[i]? with
    | some CallerPC.waiting =>
      some { s with lock := false, callers := s.callers.set i (CallerPC.done s.rows) }
    | _ => none

/-- Run of the system under a list of scheduler choices. -/
def runSched (s : SysState) : List SchedChoice → Option SysState
  | [] => some s
  | c :: cs =>
    match stepC s c with
    | none => none
    | some s2 => runSched s2 cs

/-- System start: lock free, stale snapshot with rows r0, n idle callers. -/
def initState (n : Nat) (r0 : List FundingDiffRow) : SysState :=
  { lock := false, fresh := false, rows := r0,
    callers := List.replicate n CallerPC.idle, execs := 0 }

/-- Callers currently awaiting a refresh. -/
def waitingCount (s : SysState) : Nat :=
  s.callers.countP (fun pc => decide (pc = CallerPC.waiting))

/-- Holds of the control points of callers that have been served. -/
def isDonePC : CallerPC → Bool
  | CallerPC.done _ => true
  | _ => false

/-- Single-flight invariant of error-free runs: at most one pipeline
execution has started; while none has, the lock is free, the snapshot
stale and every caller still idle; once one has, the lock is held or the
snapshot has been refreshed. -/
def SingleFlightInv (s : SysState) : Prop :=
  s.execs ≤ 1 ∧
  (s.execs = 0 → s.lock = false ∧ s.fresh = false ∧ ∀ pc ∈ s.callers, pc = CallerPC.idle) ∧
  (s.execs = 1 → s.lock = true ∨ s.fresh = true)

/-- Server state at process start (app.py lines 24-31). -/
def sampleServerState : ServerState :=
  { timestamp := 0, rows := [], meta := none, last_error := none,
    last_error_at := none, history := emptyHistory }

/-- Scheduler state with one caller awaiting a refresh. -/
def sampleSysState : SysState :=
  { lock := true, fresh := false, rows := [], callers := [CallerPC.waiting], execs := 1 }

/-- Scheduler state with the lock held elsewhere and one idle caller. -/
def sampleSysIdle : SysState :=
  { lock := true, fresh := false, rows := [], callers := [CallerPC.idle], execs := 1 }

/-- Observation of the C5 example: source A at +0.01. -/
def itemA : FundingRateItem :=
  { exchange := "A", symbol := "ETHUSDT", unified_symbol := "ETH-USDT-PERP",
    funding_rate_8h := 0.01, raw_funding_rate := 0.01,
    next_funding_time := none, max_leverage := none }

/-- Observation of the C5 example: source B at +0.01. -/
def itemB : FundingRateItem :=
  { exchange := "B", symbol := "ETH-USDT-SWAP", unified_symbol := "ETH-USDT-PERP",
    funding_rate_8h := 0.01, raw_funding_rate := 0.01,
    next_funding_time := none, max_leverage := none }

/-- Observation of the C5 example: source C at -0.02. -/
def itemC : FundingRateItem :=
  { exchange := "C", symbol := "ETH-PERP", unified_symbol := "ETH-USDT-PERP",
    funding_rate_8h := -0.02, raw_funding_rate := -0.02,
    next_funding_time := none, max_leverage := none }

/-- Observation with a present but zero max_leverage. -/
def itemZeroLev : FundingRateItem :=
  { exchange := "A", symbol := "SOLUSDT", unified_symbol := "SOL-USDT-PERP",
    funding_rate_8h := 0.0001, raw_funding_rate := 0.0001,
    next_funding_time := none, max_leverage := some 0 }

/-- Observation paired with itemZeroLev, with leverage 125. -/
def itemLev125 : FundingRateItem :=
  { exchange := "B", symbol := "SOL-USDT-SWAP", unified_symbol := "SOL-USDT-PERP",
    funding_rate_8h := 0.0004, raw_funding_rate := 0.0004,
    next_funding_time := none, max_leverage := some 125 }

/-- Ranking row used by the history instances. -/
def sampleRow : FundingDiffRow :=
  { unified_symbol := "BTC-USDT-PERP", max_rate_exchange := "B", max_rate := 0.0004,
    min_rate_exchange := "A", min_rate := 0.0001, diff := 0.0003,
    leverage_used := 50, nominal_funding_max_leverage := 0.015,
    actual_diff := some 0.0003, nominal_spread := some 0.015, details := [] }

/-! Theorems. -/

/-- C6: for exactly two observations of symbol BTC-USDT-PERP, source A with
rate8h 0.0001 and leverage 125 and source B with rate8h 0.0004 and leverage
50, build_ranking produces exactly one row with high side B at 0.0004, low
side A at 0.0001, rateDiff 0.0003, leverageUsed 50 and nominalSpread
0.015. -/
theorem build_ranking_scenario_btc :
    build_ranking
      [{ exchange := "A", symbol := "BTCUSDT", unified_symbol := "BTC-USDT-PERP",
         funding_rate_8h := 0.0001, raw_funding_rate := 0.0001,
         next_funding_time := none, max_leverage := some 125 },
       { exchange := "B", symbol := "BTC-USDT-SWAP", unified_symbol := "BTC-USDT-PERP",
         funding_rate_8h := 0.0004, raw_funding_rate := 0.0004,
         next_funding_time := none, max_leverage := some 50 }] =
      [{ unified_symbol := "BTC-USDT-PERP", max_rate_exchange := "B", max_rate := 0.0004,
         min_rate_exchange := "A", min_rate := 0.0001, diff := 0.0003,
         leverage_used := 50, nominal_funding_max_leverage := 0.015,
         actual_diff := some 0.0003, nominal_spread := some 0.015,
         details :=
           [{ exchange := "A", symbol := "BTCUSDT", unified_symbol := "BTC-USDT-PERP",
              funding_rate_8h := 0.0001, raw_funding_rate := 0.0001,
              next_funding_time := none, max_leverage := some 125 },
            { exchange := "B", symbol := "BTC-USDT-SWAP", unified_symbol := "BTC-USDT-PERP",
              funding_rate_8h := 0.0004, raw_funding_rate := 0.0004,
              next_funding_time := none, max_leverage := some 50 }] }] := by
  decide

/-- C1 (code defect): every call of _refresh_cache raises before reaching its
success path, because app.py line 48 unpacks the flat list returned by the
collect_all of src/core/aggregator.py into (items, fetch_status). A
collected list of length other than two raises ValueError at the unpacking;
a two-element list binds items to a lone FundingRateItem and
build_ranking(items) raises TypeError. Hence no refresh ever replaces the
snapshot, appends history records or clears last_error; the handler records
the exception instead. -/
theorem refresh_cache_always_errors (collected : List FundingRateItem) :
    refresh_cache_result collected = Except.error PyError.valueError ∨
    refresh_cache_result collected = Except.error PyError.typeError := by
  unfold refresh_cache_result
  cases h : unpack2 collected <;> simp

/-- C2: for each of the two registered sources, a non-empty result on cycle
N-1 overwrites exactly that entry of the per-source cache; if that source
then fails or returns empty on cycle N, the merged output of cycle N
contains exactly those cached items in that source position, next to the
other source contribution, and the cache entry is untouched; a failing or
empty result never mutates the cache of any source; and with no cache
present the failing source contributes nothing. -/
theorem collect_all_fallback (c0 cN cO : ExchangeCache) (L : List FundingRateItem)
    (rO1 rN rO2 rB1 rB2 : FetchResult) (name : String) (hL : L ≠ [])
    (hfail : rN = FetchResult.err ∨ rN = FetchResult.ok [])
    (hno : cN "BINANCE" = []) (hnoO : cO "OKX" = []) :
    (collect_all c0 (FetchResult.ok L) rO1).2 "BINANCE" = L ∧
    (collect_all ((collect_all c0 (FetchResult.ok L) rO1).2) rN rO2).1 =
      L ++ (collect_step ((collect_all c0 (FetchResult.ok L) rO1).2) "OKX" rO2).1 ∧
    (collect_all ((collect_all c0 (FetchResult.ok L) rO1).2) rN rO2).2 "BINANCE" = L ∧
    (collect_step cN "BINANCE" rN).2 = cN ∧
    (collect_all cN rN rO2).1 = (collect_step cN "OKX" rO2).1 ∧
    (collect_step c0 name rN).2 = c0 ∧
    (collect_all c0 rB1 (FetchResult.ok L)).2 "OKX" = L ∧
    (collect_all ((collect_all c0 rB1 (FetchResult.ok L)).2) rB2 rN).1 =
      (collect_step ((collect_all c0 rB1 (FetchResult.ok L)).2) "BINANCE" rB2).1 ++ L ∧
    (collect_all ((collect_all c0 rB1 (FetchResult.ok L)).2) rB2 rN).2 "OKX" = L ∧
    (collect_all cO rB2 rN).1 = (collect_step cO "BINANCE" rB2).1 := by
  have hLe : L.isEmpty = false := by
    cases L with
    | nil => exact absurd rfl hL
    | cons a as => rfl
  have hstep1 : (collect_all c0 (FetchResult.ok L) rO1).2 "BINANCE" = L := by
    cases rO1 with
    | err => simp [collect_all, collect_step, hLe]
    | ok cur =>
      cases hc : cur.isEmpty <;>
        simp [collect_all, collect_step, hLe, hc]
  have hfailstep : ∀ (c : ExchangeCache) (nm : String),
      collect_step c nm rN = (c nm, c) := by
    intro c nm
    rcases hfail with h | h <;> subst h <;> simp [collect_step]
  have hmid : ∀ c : ExchangeCache, (collect_step c "BINANCE" rB2).2 "OKX" = c "OKX" := by
    intro c
    cases rB2 with
    | err => rfl
    | ok cur =>
      cases hc : cur.isEmpty <;> simp [collect_step, hc]
  have hstepO : (collect_all c0 rB1 (FetchResult.ok L)).2 "OKX" = L := by
    simp [collect_all, collect_step, hLe]
  refine ⟨hstep1, ?_, ?_, ?_, ?_, ?_, hstepO, ?_, ?_, ?_⟩
  · show (collect_step _ "BINANCE" rN).1 ++ _ = _
    rw [hfailstep, hstep1]
  · show (collect_step ((collect_step _ "BINANCE" rN).2) "OKX" rO2).2 "BINANCE" = L
    rw [hfailstep]
    cases rO2 with
    | err => simpa [collect_step] using hstep1
    | ok cur =>
      cases hc : cur.isEmpty <;>
        simpa [collect_step, hc] using hstep1
  · rw [hfailstep]
  · show (collect_step cN "BINANCE" rN).1 ++ _ = _
    rw [hfailstep]
    simp [hno]
  · rw [hfailstep]
  · show (collect_step _ "BINANCE" rB2).1 ++
      (collect_step ((collect_step _ "BINANCE" rB2).2) "OKX" rN).1 = _
    rw [hfailstep, hmid, hstepO]
  · show (collect_step ((collect_step _ "BINANCE" rB2).2) "OKX" rN).2 "OKX" = L
    rw [hfailstep, hmid, hstepO]
  · show (collect_step cO "BINANCE" rB2).1 ++
      (collect_step ((collect_step cO "BINANCE" rB2).2) "OKX" rN).1 =
      (collect_step cO "BINANCE" rB2).1
    rw [hfailstep, hmid, hnoO, List.append_nil]

/-- Closed instance of collect_all_fallback: one cached BINANCE item survives
a failing second cycle, and symmetrically one cached OKX item survives a
failing second cycle. -/
theorem collect_all_fallback_witness :
    ([{ exchange := "BINANCE", symbol := "X", unified_symbol := "X-USDT-PERP",
        funding_rate_8h := 1, raw_funding_rate := 1,
        next_funding_time := none, max_leverage := none }] ≠
      ([] : List FundingRateItem)) ∧
    (FetchResult.err = FetchResult.err ∨ FetchResult.err = FetchResult.ok []) ∧
    ((fun _ => []) : ExchangeCache) "BINANCE" = [] ∧
    (collect_all ((collect_all (fun _ => [])
        (FetchResult.ok
          [{ exchange := "BINANCE", symbol := "X", unified_symbol := "X-USDT-PERP",
             funding_rate_8h := 1, raw_funding_rate := 1,
             next_funding_time := none, max_leverage := none }])
        FetchResult.err).2) FetchResult.err FetchResult.err).1 =
      [{ exchange := "BINANCE", symbol := "X", unified_symbol := "X-USDT-PERP",
         funding_rate_8h := 1, raw_funding_rate := 1,
         next_funding_time := none, max_leverage := none }] ++
        (collect_step ((collect_all (fun _ => [])
          (FetchResult.ok
            [{ exchange := "BINANCE", symbol := "X", unified_symbol := "X-USDT-PERP",
               funding_rate_8h := 1, raw_funding_rate := 1,
               next_funding_time := none, max_leverage := none }])
          FetchResult.err).2) "OKX" FetchResult.err).1 ∧
    (collect_all ((collect_all (fun _ => []) FetchResult.err
        (FetchResult.ok
          [{ exchange := "BINANCE", symbol := "X", unified_symbol := "X-USDT-PERP",
             funding_rate_8h := 1, raw_funding_rate := 1,
             next_funding_time := none, max_leverage := none }])).2)
      FetchResult.err FetchResult.err).1 =
      (collect_step ((collect_all (fun _ => []) FetchResult.err
        (FetchResult.ok
          [{ exchange := "BINANCE", symbol := "X", unified_symbol := "X-USDT-PERP",
             funding_rate_8h := 1, raw_funding_rate := 1,
             next_funding_time := none, max_leverage := none }])).2)
        "BINANCE" FetchResult.err).1 ++
        [{ exchange := "BINANCE", symbol := "X", unified_symbol := "X-USDT-PERP",
           funding_rate_8h := 1, raw_funding_rate := 1,
           next_funding_time := none, max_leverage := none }] :=
  ⟨by decide, Or.inl rfl, rfl,
    (collect_all_fallback (fun _ => []) (fun _ => []) (fun _ => [])
      [{ exchange := "BINANCE", symbol := "X", unified_symbol := "X-USDT-PERP",
         funding_rate_8h := 1, raw_funding_rate := 1,
         next_funding_time := none, max_leverage := none }]
      FetchResult.err FetchResult.err FetchResult.err FetchResult.err FetchResult.err
      "BINANCE" (by decide) (Or.inl rfl) rfl rfl).2.1,
    (collect_all_fallback (fun _ => []) (fun _ => []) (fun _ => [])
      [{ exchange := "BINANCE", symbol := "X", unified_symbol := "X-USDT-PERP",
         funding_rate_8h := 1, raw_funding_rate := 1,
         next_funding_time := none, max_leverage := none }]
      FetchResult.err FetchResult.err FetchResult.err FetchResult.err FetchResult.err
      "BINANCE" (by decide) (Or.inl rfl) rfl rfl).2.2.2.2.2.2.2.1⟩

/-- C3: a refresh attempt that ends in a timeout or an exception leaves the
cached rows, timestamp, meta and history unchanged, serves the prior rows,
records the error kind and an error timestamp and exposes both through the
reply meta; and the completion of a failed refresh always clears the
refresh lock while keeping the rows, which is the finishErr transition of
the scheduler model. -/
theorem failed_refresh_preserves_snapshot (st : ServerState) (now terr : ℚ)
    (outcome : RefreshOutcome) (msg : String) (s : SysState) (i : Nat)
    (hstale : ¬(st.timestamp ≠ 0 ∧ now - st.timestamp < REFRESH_INTERVAL))
    (hout : outcome = RefreshOutcome.timeout ∨ outcome = RefreshOutcome.exc msg)
    (hw : s.callers[i]? = some CallerPC.waiting) :
    (get_funding_ranking st now false outcome terr).1.rows = st.rows ∧
    (get_funding_ranking st now false outcome terr).1.timestamp = st.timestamp ∧
    (get_funding_ranking st now false outcome terr).1.meta = st.meta ∧
    (get_funding_ranking st now false outcome terr).1.history = st.history ∧
    (get_funding_ranking st now false outcome terr).1.last_error =
      some (if outcome = RefreshOutcome.timeout then refreshTimeoutMsg else msg) ∧
    (get_funding_ranking st now false outcome terr).1.last_error_at = some terr ∧
    (get_funding_ranking st now false outcome terr).2.rows = st.rows ∧
    (get_funding_ranking st now false outcome terr).2.last_error =
      some (if outcome = RefreshOutcome.timeout then refreshTimeoutMsg else msg) ∧
    (get_funding_ranking st now false outcome terr).2.last_error_at = some terr ∧
    stepC s (SchedChoice.finishErr i) =
      some { s with lock := false,
                    callers := s.callers.set i (CallerPC.done s.rows) } := by
  have hstep : stepC s (SchedChoice.finishErr i) =
      some { s with lock := false,
                    callers := s.callers.set i (CallerPC.done s.rows) } := by
    simp [stepC, hw]
  rcases hout with h | h <;> subst h <;>
    simp [get_funding_ranking, hstale, hstep]

/-- Every scheduler step leaves the number of callers unchanged. -/
theorem stepC_length {s s2 : SysState} {c : SchedChoice} (h : stepC s c = some s2) :
    s2.callers.length = s.callers.length := by
  cases c with
  | start i =>
    simp only [stepC] at h
    cases hpc : s.callers[i]? with
    | none => rw [hpc] at h; exact absurd h (by simp)
    | some pc =>
      rw [hpc] at h
      cases pc with
      | idle =>
        by_cases hf : s.fresh = true <;> by_cases hl : s.lock = true <;>
          simp [hf, hl] at h <;> cases h <;> simp
      | waiting => exact absurd h (by simp)
      | done rs => exact absurd h (by simp)
  | finishOk i r =>
    simp only [stepC] at h
    cases hpc : s.callers[i]? with
    | none => rw [hpc] at h; exact absurd h (by simp)
    | some pc =>
      rw [hpc] at h
      cases pc with
      | idle => exact absurd h (by simp)
      | waiting => cases h; simp
      | done rs => exact absurd h (by simp)
  | finishErr i =>
    simp only [stepC] at h
    cases hpc : s.callers[i]? with
    | none => rw [hpc] at h; exact absurd h (by simp)
    | some pc =>
      rw [hpc] at h
      cases pc with
      | idle => exact absurd h (by simp)
      | waiting => cases h; simp
      | done rs => exact absurd h (by simp)

/-- Every whole run leaves the number of callers unchanged. -/
theorem runSched_length {choices : List SchedChoice} :
    ∀ {s sFin : SysState}, runSched s choices = some sFin →
      sFin.callers.length = s.callers.length := by
  induction choices with
  | nil => intro s sFin h; cases h; rfl
  | cons c cs ih =>
    intro s sFin h
    unfold runSched at h
    cases hs : stepC s c with
    | none => rw [hs] at h; exact absurd h (by simp)
    | some s2 => rw [hs] at h; rw [ih h, stepC_length hs]

/-- Every error-free scheduler step preserves the single-flight invariant. -/
theorem stepC_singleflight {s s2 : SysState} {c : SchedChoice}
    (h : stepC s c = some s2) (hne : isErrChoice c = false)
    (hI : SingleFlightInv s) : SingleFlightInv s2 := by
  obtain ⟨h1, h2, h3⟩ := hI
  cases c with
  | start i =>
    simp only [stepC] at h
    cases hpc : s.callers[i]? with
    | none => rw [hpc] at h; exact absurd h (by simp)
    | some pc =>
      rw [hpc] at h
      cases pc with
      | idle =>
        by_cases hf : s.fresh = true
        · rw [if_pos hf] at h
          rw [Option.some_inj] at h
          subst h
          refine ⟨h1, ?_, fun he => (h3 he).imp id id⟩
          intro h0
          have := (h2 h0).2.1
          rw [hf] at this
          cases this
        · rw [if_neg hf] at h
          by_cases hl : s.lock = true
          · rw [if_pos hl] at h
            rw [Option.some_inj] at h
            subst h
            refine ⟨h1, ?_, fun he => (h3 he).imp id id⟩
            intro h0
            have := (h2 h0).1
            rw [hl] at this
            cases this
          · rw [if_neg hl] at h
            rw [Option.some_inj] at h
            subst h
            have he0 : s.execs = 0 := by
              rcases Nat.lt_or_ge s.execs 1 with hlt | hge
              · omega
              · have he1 : s.execs = 1 := by omega
                rcases h3 he1 with hc | hc
                · exact absurd hc hl
                · exact absurd hc hf
            refine ⟨by simp [he0], ?_, fun _ => Or.inl rfl⟩
            intro hz
            simp at hz
      | waiting => exact absurd h (by simp)
      | done rs => exact absurd h (by simp)
  | finishOk i r =>
    simp only [stepC] at h
    cases hpc : s.callers[i]? with
    | none => rw [hpc] at h; exact absurd h (by simp)
    | some pc =>
      rw [hpc] at h
      cases pc with
      | idle => exact absurd h (by simp)
      | waiting =>
        rw [Option.some_inj] at h
        subst h
        refine ⟨h1, ?_, fun _ => Or.inr rfl⟩
        intro h0
        have hall := (h2 h0).2.2
        have hmem := List.getElem?_mem hpc
        have := hall CallerPC.waiting hmem
        cases this
      | done rs => exact absurd h (by simp)
  | finishErr i => simp [isErrChoice] at hne

/-- Every error-free run preserves the single-flight invariant. -/
theorem runSched_singleflight {choices : List SchedChoice} :
    ∀ {s sFin : SysState}, runSched s choices = some sFin →
      (∀ c ∈ choices, isErrChoice c = false) → SingleFlightInv s →
      SingleFlightInv sFin := by
  induction choices with
  | nil => intro s sFin h _ hI; cases h; exact hI
  | cons c cs ih =>
    intro s sFin h hne hI
    unfold runSched at h
    cases hs : stepC s c with
    | none => rw [hs] at h; exact absurd h (by simp)
    | some s2 =>
      rw [hs] at h
      exact ih h (fun d hd => hne d (List.mem_cons_of_mem c hd))
        (stepC_singleflight hs (hne c (List.mem_cons_self c cs)) hI)

/-- C4: in the cooperative scheduler model of the ranking endpoint, for
every complete error-free run from a stale start in which every one of the
n callers has been served, exactly one pipeline execution has occurred, no
caller is left awaiting a refresh, the caller count is preserved; and a
caller whose first segment finds the lock held is served the current
cached rows in that same segment, without entering the waiting state. -/
theorem single_flight_refresh (n : Nat) (r0 : List FundingDiffRow)
    (choices : List SchedChoice) (sFin : SysState) (s : SysState) (i : Nat)
    (hrun : runSched (initState n r0) choices = some sFin)
    (hnoerr : ∀ c ∈ choices, isErrChoice c = false)
    (hdone : ∀ pc ∈ sFin.callers, isDonePC pc = true)
    (hn : n ≠ 0)
    (hlock : s.lock = true) (hidle : s.callers[i]? = some CallerPC.idle) :
    sFin.execs = 1 ∧
    waitingCount sFin = 0 ∧
    sFin.callers.length = n ∧
    stepC s (SchedChoice.start i) =
      some { s with callers := s.callers.set i (CallerPC.done s.rows) } := by
  have hinit : SingleFlightInv (initState n r0) := by
    refine ⟨by simp [initState], ?_, by simp [initState]⟩
    intro _
    exact ⟨rfl, rfl, fun pc hpc => List.eq_of_mem_replicate hpc⟩
  have hfin := runSched_singleflight hrun hnoerr hinit
  have hlen : sFin.callers.length = n := by
    rw [runSched_length hrun]; simp [initState]
  obtain ⟨hle, h0, _⟩ := hfin
  have hex : sFin.execs = 1 := by
    rcases Nat.lt_or_ge sFin.execs 1 with hlt | hge
    · have h0e : sFin.execs = 0 := by omega
      obtain ⟨x, hx⟩ := List.exists_mem_of_length_pos (l := sFin.callers)
        (by rw [hlen]; omega)
      have hxidle := (h0 h0e).2.2 x hx
      have hxdone := hdone x hx
      rw [hxidle] at hxdone
      simp [isDonePC] at hxdone
    · omega
  refine ⟨hex, ?_, hlen, ?_⟩
  · simp only [waitingCount, List.countP_eq_zero]
    intro pc hpc
    have hd := hdone pc hpc
    cases pc <;> simp_all [isDonePC]
  · cases hf : s.fresh <;> simp [stepC, hidle, hlock, hf]

/-- Closed instance of single_flight_refresh: two concurrent stale callers,
a single pipeline execution, both served. -/
theorem single_flight_refresh_witness :
    ({ lock := false, fresh := true, rows := [],
       callers := [CallerPC.done [], CallerPC.done []], execs := 1 } : SysState).execs = 1 ∧
    waitingCount { lock := false, fresh := true, rows := [],
                   callers := [CallerPC.done [], CallerPC.done []], execs := 1 } = 0 ∧
    ({ lock := false, fresh := true, rows := [],
       callers := [CallerPC.done [], CallerPC.done []], execs := 1 } : SysState).callers.length = 2 ∧
    stepC sampleSysIdle (SchedChoice.start 0) =
      some { sampleSysIdle with
             callers := sampleSysIdle.callers.set 0 (CallerPC.done sampleSysIdle.rows) } :=
  single_flight_refresh 2 []
    [SchedChoice.start 0, SchedChoice.start 1, SchedChoice.finishOk 0 []]
    { lock := false, fresh := true, rows := [],
      callers := [CallerPC.done [], CallerPC.done []], execs := 1 }
    sampleSysIdle 0 (by decide) (by decide) (by decide) (by decide) (by decide)
    (by decide)

/-- Closed instance of failed_refresh_preserves_snapshot: a timeout on the
process-start state keeps the snapshot and records the timeout error. -/
theorem failed_refresh_preserves_snapshot_witness :
    (get_funding_ranking sampleServerState 100 false RefreshOutcome.timeout 101).1.rows =
      sampleServerState.rows ∧
    (get_funding_ranking sampleServerState 100 false RefreshOutcome.timeout 101).1.timestamp =
      sampleServerState.timestamp ∧
    (get_funding_ranking sampleServerState 100 false RefreshOutcome.timeout 101).1.last_error =
      some (if RefreshOutcome.timeout = RefreshOutcome.timeout then refreshTimeoutMsg
            else "x") ∧
    (get_funding_ranking sampleServerState 100 false RefreshOutcome.timeout 101).2.last_error_at =
      some 101 := by
  have h := failed_refresh_preserves_snapshot sampleServerState 100 101
    RefreshOutcome.timeout "x" sampleSysState 0 (by decide) (Or.inl rfl) (by decide)
  exact ⟨h.1, h.2.1, h.2.2.2.2.1, h.2.2.2.2.2.2.2.2.1⟩

/-- First component of the tie-break: the initial high candidate itself or a
member of the high candidate list. -/
theorem tie_break_fst_mem (mx0 mn0 : FundingRateItem)
    (maxC minC : List FundingRateItem) :
    (tie_break mx0 mn0 maxC minC).1 = mx0 ∨ (tie_break mx0 mn0 maxC minC).1 ∈ maxC := by
  unfold tie_break
  by_cases hs : mx0.exchange = mn0.exchange
  · rw [if_pos hs]
    cases hmn : minC.find? (fun si => !(si.exchange == mx0.exchange)) with
    | some alt => exact Or.inl rfl
    | none =>
      cases hmx : maxC.find? (fun si => !(si.exchange == mn0.exchange)) with
      | some alt => exact Or.inr (List.mem_of_find?_eq_some hmx)
      | none => exact Or.inl rfl
  · rw [if_neg hs]; exact Or.inl rfl

/-- Second component of the tie-break: the initial low candidate itself or a
member of the low candidate list. -/
theorem tie_break_snd_mem (mx0 mn0 : FundingRateItem)
    (maxC minC : List FundingRateItem) :
    (tie_break mx0 mn0 maxC minC).2 = mn0 ∨ (tie_break mx0 mn0 maxC minC).2 ∈ minC := by
  unfold tie_break
  by_cases hs : mx0.exchange = mn0.exchange
  · rw [if_pos hs]
    cases hmn : minC.find? (fun si => !(si.exchange == mx0.exchange)) with
    | some alt => exact Or.inr (List.mem_of_find?_eq_some hmn)
    | none =>
      cases hmx : maxC.find? (fun si => !(si.exchange == mn0.exchange)) with
      | some alt => exact Or.inl rfl
      | none => exact Or.inl rfl
  · rw [if_neg hs]; exact Or.inl rfl


/-- Every row produced for a group carries the group key, the group items as
details, a group with at least two distinct exchanges, and fields derived
from two members of the group: the high and low sides, the min of the two
truthy-defaulted leverages, and nominal = diff * leverage. -/
theorem rowForGroup_spec {k : String} {l : List FundingRateItem} {row : FundingDiffRow}
    (hr : rowForGroup k l = some row) :
    row.unified_symbol = k ∧
    row.details = l ∧
    2 ≤ ((l.map (fun si => si.exchange)).dedup).length ∧
    ∃ hi ∈ l, ∃ lo ∈ l,
      row.max_rate_exchange = hi.exchange ∧
      row.max_rate = hi.funding_rate_8h ∧
      row.min_rate_exchange = lo.exchange ∧
      row.min_rate = lo.funding_rate_8h ∧
      row.diff = hi.funding_rate_8h - lo.funding_rate_8h ∧
      row.leverage_used =
        min (pyOrD hi.max_leverage DEFAULT_LEVERAGE) (pyOrD lo.max_leverage DEFAULT_LEVERAGE) ∧
      row.nominal_spread = some (row.diff * row.leverage_used) ∧
      row.nominal_funding_max_leverage = row.diff * row.leverage_used := by
  unfold rowForGroup at hr
  split at hr
  · cases hr
  · rename_i hg
    split at hr
    · cases hr
    · rename_i x xs
      split at hr
      · rename_i mx0 mxs mn0 mns hmx hmn
        rw [Option.some_inj] at hr
        subst hr
        refine ⟨rfl, rfl, by omega, ?_⟩
        have hhi : (tie_break mx0 mn0 (mx0 :: mxs) (mn0 :: mns)).1 ∈ x :: xs := by
          rcases tie_break_fst_mem mx0 mn0 (mx0 :: mxs) (mn0 :: mns) with he | hm
          · rw [he]
            have hmem : mx0 ∈ maxCandidates x xs := by
              rw [hmx]; exact List.mem_cons_self _ _
            exact List.mem_of_mem_filter hmem
          · have hm2 : (tie_break mx0 mn0 (mx0 :: mxs) (mn0 :: mns)).1 ∈
                maxCandidates x xs := by rw [hmx]; exact hm
            exact List.mem_of_mem_filter hm2
        have hlo : (tie_break mx0 mn0 (mx0 :: mxs) (mn0 :: mns)).2 ∈ x :: xs := by
          rcases tie_break_snd_mem mx0 mn0 (mx0 :: mxs) (mn0 :: mns) with he | hm
          · rw [he]
            have hmem : mn0 ∈ minCandidates x xs := by
              rw [hmn]; exact List.mem_cons_self _ _
            exact List.mem_of_mem_filter hmem
          · have hm2 : (tie_break mx0 mn0 (mx0 :: mxs) (mn0 :: mns)).2 ∈
                minCandidates x xs := by rw [hmn]; exact hm
            exact List.mem_of_mem_filter hm2
        exact ⟨_, hhi, _, hlo, rfl, rfl, rfl, rfl, rfl, rfl, rfl, rfl⟩
      · cases hr

/-- Membership is preserved by the stable descending insertion. -/
theorem mem_insertRowDesc {r x : FundingDiffRow} {l : List FundingDiffRow} :
    x ∈ insertRowDesc r l ↔ x = r ∨ x ∈ l := by
  induction l with
  | nil => simp [insertRowDesc]
  | cons a as ih =>
    unfold insertRowDesc
    by_cases h : |a.diff| < |r.diff|
    · rw [if_pos h]
      simp [List.mem_cons]
    · rw [if_neg h]
      simp [List.mem_cons, ih]
      tauto

/-- Membership is preserved by the stable descending sort. -/
theorem mem_sortRowsDesc {x : FundingDiffRow} {l : List FundingDiffRow} :
    x ∈ sortRowsDesc l ↔ x ∈ l := by
  induction l with
  | nil => simp [sortRowsDesc]
  | cons a as ih =>
    unfold sortRowsDesc
    rw [mem_insertRowDesc]
    simp [List.mem_cons, ih]

/-- Every row of build_ranking comes from the group of its key. -/
theorem mem_build_ranking {items : List FundingRateItem} {row : FundingDiffRow}
    (h : row ∈ build_ranking items) :
    ∃ k, rowForGroup k (groupItems items k) = some row := by
  unfold build_ranking at h
  by_cases he : items.isEmpty
  · rw [if_pos he] at h; cases h
  · rw [if_neg he] at h
    rw [mem_sortRowsDesc, List.mem_filterMap] at h
    obtain ⟨k, _, hk⟩ := h
    exact ⟨k, hk⟩

/-- C7: every row of build_ranking concerns a symbol observed by at least two
distinct sources among the input items; in particular a symbol observed by
fewer than two distinct sources, such as one observed by a single source,
never appears among the output rows. -/
theorem ranking_requires_two_sources (items : List FundingRateItem)
    (row : FundingDiffRow) (h : row ∈ build_ranking items) :
    2 ≤ (((items.filter (fun i => i.unified_symbol == row.unified_symbol)).map
      (fun si => si.exchange)).dedup).length := by
  obtain ⟨k, hk⟩ := mem_build_ranking h
  obtain ⟨hsym, _, hcount, _⟩ := rowForGroup_spec hk
  rw [hsym]
  exact hcount

/-- Closed instance of ranking_requires_two_sources at the two-source BTC
scenario. -/
theorem ranking_requires_two_sources_witness :
    (mkRankingRow "BTC-USDT-PERP"
        [{ exchange := "A", symbol := "BTCUSDT", unified_symbol := "BTC-USDT-PERP",
           funding_rate_8h := 0.0001, raw_funding_rate := 0.0001,
           next_funding_time := none, max_leverage := some 125 },
         { exchange := "B", symbol := "BTC-USDT-SWAP", unified_symbol := "BTC-USDT-PERP",
           funding_rate_8h := 0.0004, raw_funding_rate := 0.0004,
           next_funding_time := none, max_leverage := some 50 }]
        { exchange := "B", symbol := "BTC-USDT-SWAP", unified_symbol := "BTC-USDT-PERP",
          funding_rate_8h := 0.0004, raw_funding_rate := 0.0004,
          next_funding_time := none, max_leverage := some 50 }
        { exchange := "A", symbol := "BTCUSDT", unified_symbol := "BTC-USDT-PERP",
          funding_rate_8h := 0.0001, raw_funding_rate := 0.0001,
          next_funding_time := none, max_leverage := some 125 } ∈
      build_ranking
        [{ exchange := "A", symbol := "BTCUSDT", unified_symbol := "BTC-USDT-PERP",
           funding_rate_8h := 0.0001, raw_funding_rate := 0.0001,
           next_funding_time := none, max_leverage := some 125 },
         { exchange := "B", symbol := "BTC-USDT-SWAP", unified_symbol := "BTC-USDT-PERP",
           funding_rate_8h := 0.0004, raw_funding_rate := 0.0004,
           next_funding_time := none, max_leverage := some 50 }]) ∧
    2 ≤ ((([{ exchange := "A", symbol := "BTCUSDT", unified_symbol := "BTC-USDT-PERP",
              funding_rate_8h := 0.0001, raw_funding_rate := 0.0001,
              next_funding_time := none, max_leverage := some 125 },
            { exchange := "B", symbol := "BTC-USDT-SWAP", unified_symbol := "BTC-USDT-PERP",
              funding_rate_8h := 0.0004, raw_funding_rate := 0.0004,
              next_funding_time := none, max_leverage := some 50 }] :
          List FundingRateItem).filter
        (fun i => i.unified_symbol ==
          (mkRankingRow "BTC-USDT-PERP"
            [{ exchange := "A", symbol := "BTCUSDT", unified_symbol := "BTC-USDT-PERP",
               funding_rate_8h := 0.0001, raw_funding_rate := 0.0001,
               next_funding_time := none, max_leverage := some 125 },
             { exchange := "B", symbol := "BTC-USDT-SWAP", unified_symbol := "BTC-USDT-PERP",
               funding_rate_8h := 0.0004, raw_funding_rate := 0.0004,
               next_funding_time := none, max_leverage := some 50 }]
            { exchange := "B", symbol := "BTC-USDT-SWAP", unified_symbol := "BTC-USDT-PERP",
              funding_rate_8h := 0.0004, raw_funding_rate := 0.0004,
              next_funding_time := none, max_leverage := some 50 }
            { exchange := "A", symbol := "BTCUSDT", unified_symbol := "BTC-USDT-PERP",
              funding_rate_8h := 0.0001, raw_funding_rate := 0.0001,
              next_funding_time := none, max_leverage := some 125 }).unified_symbol)).map
      (fun si => si.exchange)).dedup.length :=
  ⟨by decide,
    ranking_requires_two_sources _ _ (by decide)⟩

/-- C9: every ranking row reports sides drawn from its own details, with
leverageUsed the minimum of the two sides' leverage after the per-source
default fallback (the single constant DEFAULT_LEVERAGE = 50 for every
source in this code), and nominalSpread = rateDiff * leverageUsed. -/
theorem leverage_used_min_of_sides (items : List FundingRateItem)
    (row : FundingDiffRow) (h : row ∈ build_ranking items) :
    ∃ hi ∈ row.details, ∃ lo ∈ row.details,
      row.max_rate_exchange = hi.exchange ∧
      row.max_rate = hi.funding_rate_8h ∧
      row.min_rate_exchange = lo.exchange ∧
      row.min_rate = lo.funding_rate_8h ∧
      row.diff = row.max_rate - row.min_rate ∧
      row.leverage_used =
        min (pyOrD hi.max_leverage DEFAULT_LEVERAGE)
            (pyOrD lo.max_leverage DEFAULT_LEVERAGE) ∧
      row.nominal_spread = some (row.diff * row.leverage_used) := by
  obtain ⟨k, hk⟩ := mem_build_ranking h
  obtain ⟨_, hdet, _, hi, hhi, lo, hlo, h1, h2, h3, h4, h5, h6, h7, _⟩ :=
    rowForGroup_spec hk
  rw [hdet]
  exact ⟨hi, hhi, lo, hlo, h1, h2, h3, h4, by rw [h5, h2, h4], h6, h7⟩

/-- Closed instance of leverage_used_min_of_sides at a pair whose low side
has leverage 0. -/
theorem leverage_used_min_of_sides_witness :
    ∃ hi ∈ (mkRankingRow "SOL-USDT-PERP" [itemZeroLev, itemLev125]
        itemLev125 itemZeroLev).details,
    ∃ lo ∈ (mkRankingRow "SOL-USDT-PERP" [itemZeroLev, itemLev125]
        itemLev125 itemZeroLev).details,
      (mkRankingRow "SOL-USDT-PERP" [itemZeroLev, itemLev125]
        itemLev125 itemZeroLev).max_rate_exchange = hi.exchange ∧
      (mkRankingRow "SOL-USDT-PERP" [itemZeroLev, itemLev125]
        itemLev125 itemZeroLev).max_rate = hi.funding_rate_8h ∧
      (mkRankingRow "SOL-USDT-PERP" [itemZeroLev, itemLev125]
        itemLev125 itemZeroLev).min_rate_exchange = lo.exchange ∧
      (mkRankingRow "SOL-USDT-PERP" [itemZeroLev, itemLev125]
        itemLev125 itemZeroLev).min_rate = lo.funding_rate_8h ∧
      (mkRankingRow "SOL-USDT-PERP" [itemZeroLev, itemLev125]
        itemLev125 itemZeroLev).diff =
        (mkRankingRow "SOL-USDT-PERP" [itemZeroLev, itemLev125]
          itemLev125 itemZeroLev).max_rate -
          (mkRankingRow "SOL-USDT-PERP" [itemZeroLev, itemLev125]
            itemLev125 itemZeroLev).min_rate ∧
      (mkRankingRow "SOL-USDT-PERP" [itemZeroLev, itemLev125]
        itemLev125 itemZeroLev).leverage_used =
        min (pyOrD hi.max_leverage DEFAULT_LEVERAGE)
            (pyOrD lo.max_leverage DEFAULT_LEVERAGE) ∧
      (mkRankingRow "SOL-USDT-PERP" [itemZeroLev, itemLev125]
        itemLev125 itemZeroLev).nominal_spread =
        some ((mkRankingRow "SOL-USDT-PERP" [itemZeroLev, itemLev125]
          itemLev125 itemZeroLev).diff *
          (mkRankingRow "SOL-USDT-PERP" [itemZeroLev, itemLev125]
            itemLev125 itemZeroLev).leverage_used) :=
  leverage_used_min_of_sides [itemZeroLev, itemLev125]
    (mkRankingRow "SOL-USDT-PERP" [itemZeroLev, itemLev125] itemLev125 itemZeroLev)
    (by decide)

/-- Auxiliary: the truthy fallback never returns zero when the default is
nonzero. -/
theorem pyOrD_ne_zero {x : Option ℚ} {d : ℚ} (hd : d ≠ 0) : pyOrD x d ≠ 0 := by
  cases x with
  | none => exact hd
  | some v =>
    show (if v = 0 then d else v) ≠ 0
    by_cases hv : v = 0
    · rw [if_pos hv]; exact hd
    · rw [if_neg hv]; exact hv

/-- C10: a present but zero max_leverage is treated exactly like a missing
one: the truthy fallback substitutes DEFAULT_LEVERAGE = 50, so leverageUsed
is never 0, and in the concrete zero-leverage pair the nominal spread is
computed with the default 50 instead of 0. -/
theorem zero_leverage_treated_as_missing (items : List FundingRateItem)
    (row : FundingDiffRow) (h : row ∈ build_ranking items) :
    pyOrD (some 0) DEFAULT_LEVERAGE = DEFAULT_LEVERAGE ∧
    pyOrD none DEFAULT_LEVERAGE = DEFAULT_LEVERAGE ∧
    DEFAULT_LEVERAGE = 50 ∧
    row.leverage_used ≠ 0 ∧
    (build_ranking [itemZeroLev, itemLev125]).map
      (fun r => (r.leverage_used, r.nominal_spread)) = [(50, some 0.015)] := by
  refine ⟨by decide, rfl, rfl, ?_, by decide⟩
  obtain ⟨k, hk⟩ := mem_build_ranking h
  obtain ⟨_, _, _, hi, _, lo, _, _, _, _, _, _, h6, _, _⟩ := rowForGroup_spec hk
  rw [h6]
  have hd : DEFAULT_LEVERAGE ≠ 0 := by decide
  have ha := pyOrD_ne_zero (x := hi.max_leverage) hd
  have hb := pyOrD_ne_zero (x := lo.max_leverage) hd
  rcases min_choice (pyOrD hi.max_leverage DEFAULT_LEVERAGE)
      (pyOrD lo.max_leverage DEFAULT_LEVERAGE) with hc | hc <;> rw [hc]
  · exact ha
  · exact hb

/-- Closed instance of zero_leverage_treated_as_missing at the zero-leverage
pair. -/
theorem zero_leverage_treated_as_missing_witness :
    pyOrD (some 0) DEFAULT_LEVERAGE = DEFAULT_LEVERAGE ∧
    (mkRankingRow "SOL-USDT-PERP" [itemZeroLev, itemLev125]
      itemLev125 itemZeroLev).leverage_used ≠ 0 :=
  ⟨(zero_leverage_treated_as_missing [itemZeroLev, itemLev125]
      (mkRankingRow "SOL-USDT-PERP" [itemZeroLev, itemLev125]
        itemLev125 itemZeroLev) (by decide)).1,
   (zero_leverage_treated_as_missing [itemZeroLev, itemLev125]
      (mkRankingRow "SOL-USDT-PERP" [itemZeroLev, itemLev125]
        itemLev125 itemZeroLev) (by decide)).2.2.2.1⟩

/-- C5: when the initially chosen high and low candidates share a source, an
alternate low candidate from a different source is preferred whenever the
tied-low set offers one; otherwise an alternate high candidate whenever the
tied-high set offers one; only when neither exists does the reported pair
stay on one source. In the example with observations (A, +0.01), (B, +0.01)
and (C, -0.02) of one symbol, the output row's high source differs from its
low source. -/
theorem tie_break_prefers_distinct_sources
    (mx0 mn0 : FundingRateItem) (maxC minC : List FundingRateItem)
    (hsame : mx0.exchange = mn0.exchange) :
    ((∃ si ∈ minC, si.exchange ≠ mx0.exchange) →
      (tie_break mx0 mn0 maxC minC).1 = mx0 ∧
      (tie_break mx0 mn0 maxC minC).2 ∈ minC ∧
      (tie_break mx0 mn0 maxC minC).2.exchange ≠
        (tie_break mx0 mn0 maxC minC).1.exchange) ∧
    ((∀ si ∈ minC, si.exchange = mx0.exchange) →
      (∃ si ∈ maxC, si.exchange ≠ mn0.exchange) →
      (tie_break mx0 mn0 maxC minC).2 = mn0 ∧
      (tie_break mx0 mn0 maxC minC).1 ∈ maxC ∧
      (tie_break mx0 mn0 maxC minC).1.exchange ≠
        (tie_break mx0 mn0 maxC minC).2.exchange) ∧
    ((∀ si ∈ minC, si.exchange = mx0.exchange) →
      (∀ si ∈ maxC, si.exchange = mn0.exchange) →
      tie_break mx0 mn0 maxC minC = (mx0, mn0)) ∧
    (build_ranking [itemA, itemB, itemC]).map
      (fun r => (r.max_rate_exchange, r.min_rate_exchange)) = [("A", "C")] := by
  refine ⟨?_, ?_, ?_, by decide⟩
  · rintro ⟨a, ha, hane⟩
    have hpa : (!(a.exchange == mx0.exchange)) = true := by simp [hane]
    have hs : (minC.find? (fun si => !(si.exchange == mx0.exchange))).isSome := by
      rw [List.find?_isSome]
      exact ⟨a, ha, hpa⟩
    obtain ⟨alt, halt⟩ := Option.isSome_iff_exists.mp hs
    unfold tie_break
    rw [if_pos hsame, halt]
    refine ⟨rfl, List.mem_of_find?_eq_some halt, ?_⟩
    have := List.find?_some halt
    simpa using this
  · intro hall
    rintro ⟨a, ha, hane⟩
    have hnone : minC.find? (fun si => !(si.exchange == mx0.exchange)) = none := by
      rw [List.find?_eq_none]
      intro x hx
      simp [hall x hx]
    have hpa : (!(a.exchange == mn0.exchange)) = true := by simp [hane]
    have hs : (maxC.find? (fun si => !(si.exchange == mn0.exchange))).isSome := by
      rw [List.find?_isSome]
      exact ⟨a, ha, hpa⟩
    obtain ⟨alt, halt⟩ := Option.isSome_iff_exists.mp hs
    unfold tie_break
    rw [if_pos hsame, hnone, halt]
    refine ⟨rfl, List.mem_of_find?_eq_some halt, ?_⟩
    have := List.find?_some halt
    simpa using this
  · intro hallmin hallmax
    have hnone : minC.find? (fun si => !(si.exchange == mx0.exchange)) = none := by
      rw [List.find?_eq_none]
      intro x hx
      simp [hallmin x hx]
    have hnone2 : maxC.find? (fun si => !(si.exchange == mn0.exchange)) = none := by
      rw [List.find?_eq_none]
      intro x hx
      simp [hallmax x hx]
    unfold tie_break
    rw [if_pos hsame, hnone, hnone2]

/-- Closed instance of tie_break_prefers_distinct_sources: a same-source
initial pair with an alternate low candidate available. -/
theorem tie_break_prefers_distinct_sources_witness :
    itemA.exchange = itemA.exchange ∧
    (∃ si ∈ [itemA, itemC], si.exchange ≠ itemA.exchange) ∧
    (tie_break itemA itemA [itemA, itemB] [itemA, itemC]).1 = itemA ∧
    (tie_break itemA itemA [itemA, itemB] [itemA, itemC]).2 ∈ [itemA, itemC] ∧
    (tie_break itemA itemA [itemA, itemB] [itemA, itemC]).2.exchange ≠
      (tie_break itemA itemA [itemA, itemB] [itemA, itemC]).1.exchange := by
  have h := (tie_break_prefers_distinct_sources itemA itemA
    [itemA, itemB] [itemA, itemC] rfl).1 (by decide)
  exact ⟨rfl, by decide, h.1, h.2.1, h.2.2⟩

/-- takeLast keeps a list whose length is within the bound. -/
theorem takeLast_of_le {n : Nat} {l : List α} (h : l.length ≤ n) : takeLast n l = l := by
  unfold takeLast
  have h0 : l.length - n = 0 := by omega
  rw [h0, List.drop_zero]

/-- takeLast never exceeds the bound. -/
theorem length_takeLast_le (n : Nat) (l : List α) : (takeLast n l).length ≤ n := by
  unfold takeLast
  rw [List.length_drop]
  omega

/-- Trimming before a later append does not change the final suffix. -/
theorem takeLast_append_takeLast (n : Nat) (xs ys : List α) :
    takeLast n (takeLast n xs ++ ys) = takeLast n (xs ++ ys) := by
  by_cases h : xs.length ≤ n
  · rw [takeLast_of_le h]
  · have hk : xs.length - n ≤ xs.length := Nat.sub_le _ _
    have h1 : takeLast n xs ++ ys = (xs ++ ys).drop (xs.length - n) := by
      unfold takeLast
      rw [List.drop_append_of_le_length hk]
    rw [h1]
    unfold takeLast
    rw [List.length_drop, List.drop_drop]
    congr 1
    rw [List.length_append]
    omega

/-- Trimmed history never exceeds 200 entries. -/
theorem trimHistory_length_le (h : List HistoryRecord) :
    (trimHistory h).length ≤ 200 := by
  unfold trimHistory
  by_cases hl : 200 < h.length
  · rw [if_pos hl]; exact length_takeLast_le _ _
  · rw [if_neg hl]; omega

/-- Trimming is exactly keeping the last 200 entries. -/
theorem trimHistory_eq_takeLast (h : List HistoryRecord) :
    trimHistory h = takeLast 200 h := by
  unfold trimHistory
  by_cases hl : 200 < h.length
  · rw [if_pos hl]
  · rw [if_neg hl, takeLast_of_le (by omega)]

/-- One refresh leaves, under each symbol, the last 200 of the prior entries
followed by the records of this refresh for that symbol, in row order. -/
theorem historyAfterRefresh_apply (now : ℚ) (rows : List FundingDiffRow) :
    ∀ (H : HistoryMap), (∀ t, (H t).length ≤ 200) → ∀ s,
      historyAfterRefresh now rows H s =
        takeLast 200 (H s ++
          (rows.filter (fun r => r.unified_symbol == s)).map (histRecordOf now)) := by
  induction rows with
  | nil =>
    intro H hb s
    show H s = takeLast 200 (H s ++ ([].map (histRecordOf now)))
    rw [List.map_nil, List.append_nil, takeLast_of_le (hb s)]
  | cons r rs ih =>
    intro H hb s
    have hb2 : ∀ t, ((historyAfterRow now H r) t).length ≤ 200 := by
      intro t
      unfold historyAfterRow
      by_cases ht : t = r.unified_symbol
      · rw [if_pos ht]; exact trimHistory_length_le _
      · rw [if_neg ht]; exact hb t
    show historyAfterRefresh now rs (historyAfterRow now H r) s = _
    rw [ih (historyAfterRow now H r) hb2 s]
    by_cases hs : r.unified_symbol = s
    · have hrow : historyAfterRow now H r s =
          takeLast 200 (H s ++ [histRecordOf now r]) := by
        unfold historyAfterRow
        rw [if_pos hs.symm, trimHistory_eq_takeLast, hs]
      rw [hrow, takeLast_append_takeLast]
      congr 1
      rw [List.filter_cons_of_pos (by simp [hs]), List.map_cons, List.append_assoc]
      rfl
    · have hrow : historyAfterRow now H r s = H s := by
        unfold historyAfterRow
        rw [if_neg (fun hc => hs hc.symm)]
      rw [hrow, List.filter_cons_of_neg (by simp [hs])]

/-- A whole schedule of refreshes leaves, under each symbol, exactly the
last 200 of all records appended for that symbol, in chronological order. -/
theorem runRefreshSchedule_apply (schedule : List (ℚ × List FundingDiffRow)) :
    ∀ (H : HistoryMap), (∀ t, (H t).length ≤ 200) → ∀ s,
      runRefreshSchedule schedule H s =
        takeLast 200 (H s ++ scheduleRecords schedule s) := by
  induction schedule with
  | nil =>
    intro H hb s
    show H s = takeLast 200 (H s ++ scheduleRecords [] s)
    rw [show scheduleRecords [] s = [] from rfl, List.append_nil, takeLast_of_le (hb s)]
  | cons p rest ih =>
    intro H hb s
    have hb2 : ∀ t, ((historyAfterRefresh p.1 p.2 H) t).length ≤ 200 := by
      intro t
      rw [historyAfterRefresh_apply p.1 p.2 H hb t]
      exact length_takeLast_le _ _
    show runRefreshSchedule rest (historyAfterRefresh p.1 p.2 H) s = _
    rw [ih _ hb2 s, historyAfterRefresh_apply p.1 p.2 H hb s,
      takeLast_append_takeLast]
    congr 1
    rw [List.append_assoc]
    congr 1

/-- C8: after any number of refresh cycles from process start, the stored
history of every symbol is exactly the last (at most) 200 of all records
appended for it, in chronological oldest-first order; the history endpoint
returns exactly this sequence under the requested symbol, and the empty
sequence for a symbol no refresh ever ranked. -/
theorem history_bounded_and_chronological (schedule : List (ℚ × List FundingDiffRow))
    (s : String) :
    runRefreshSchedule schedule emptyHistory s =
      takeLast 200 (scheduleRecords schedule s) ∧
    (runRefreshSchedule schedule emptyHistory s).length ≤ 200 ∧
    (get_funding_history (runRefreshSchedule schedule emptyHistory) s).2 =
      runRefreshSchedule schedule emptyHistory s ∧
    (get_funding_history (runRefreshSchedule schedule emptyHistory) s).1 = s ∧
    (scheduleRecords schedule s = [] →
      runRefreshSchedule schedule emptyHistory s = []) := by
  have hb : ∀ t, (emptyHistory t).length ≤ 200 := fun t => by
    show ([] : List HistoryRecord).length ≤ 200
    simp
  have h1 := runRefreshSchedule_apply schedule emptyHistory hb s
  rw [show emptyHistory s = [] from rfl, List.nil_append] at h1
  refine ⟨h1, ?_, rfl, rfl, ?_⟩
  · rw [h1]; exact length_takeLast_le _ _
  · intro hnone
    rw [h1, hnone]
    rfl

/-- Closed instance of history_bounded_and_chronological: one refresh with
one row, read back for the ranked and for a never-ranked symbol. -/
theorem history_bounded_and_chronological_witness :
    runRefreshSchedule [((1 : ℚ), [sampleRow])] emptyHistory "BTC-USDT-PERP" =
      takeLast 200 (scheduleRecords [((1 : ℚ), [sampleRow])] "BTC-USDT-PERP") ∧
    runRefreshSchedule [((1 : ℚ), [sampleRow])] emptyHistory "NOPE" = [] :=
  ⟨(history_bounded_and_chronological [((1 : ℚ), [sampleRow])] "BTC-USDT-PERP").1,
   (history_bounded_and_chronological [((1 : ℚ), [sampleRow])] "NOPE").2.2.2.2
     (by decide)⟩

/-- Closed instance of refresh_cache_always_errors at the empty collection. -/
theorem refresh_cache_always_errors_witness :
    refresh_cache_result [] = Except.error PyError.valueError ∨
    refresh_cache_result [] = Except.error PyError.typeError :=
  refresh_cache_always_errors []
